import Mathlib

/-!
Shallow embedding of the devbeacons-dashboard client core:
the log normalizer inside `fetchWorkflowLogs`, the fetch wrappers
`fetchRepositories` and `fetchWorkflows` (src/src/services/api.ts), and the
pure parts of `downloadLogs` (src/src/components/LogViewer.tsx).

JavaScript objects are modelled as association lists traversed in key
insertion order (mirroring `Object.keys`), absent fields as `Option`, thrown
errors as `Except.error`, and an HTTP response as its `ok` flag together with
the outcome of parsing its body.
-/

namespace DevBeacons

/-- The four log-entry types of the `LogEntry` interface. -/
inductive LogType
  | info
  | success
  | warning
  | error
deriving DecidableEq, Repr

/-- `LogEntry` interface: message, optional type, optional category. -/
structure LogEntry where
  message : String
  type : Option LogType
  category : Option String
deriving DecidableEq, Repr

/-- `LogFile` interface: a named ordered list of entries. -/
structure LogFile where
  name : String
  logs : List LogEntry
deriving DecidableEq, Repr

/-- `Repository` interface. -/
structure Repository where
  repoName : String
deriving DecidableEq, Repr

/-- `Workflow` interface. -/
structure Workflow where
  id : String
  display_title : String
deriving DecidableEq, Repr

/-- `WorkflowStats` interface: four counters. -/
structure WorkflowStats where
  success : Int
  failure : Int
  progress : Int
  cancel : Int
deriving DecidableEq, Repr

/-- Does the character list `p` occur at the head of `s`? (helper for
JavaScript string primitives). -/
def leadsWith : List Char → List Char → Bool
  | [], _ => true
  | _ :: _, [] => false
  | p :: ps, c :: cs => p == c && leadsWith ps cs

/-- Does the pattern occur as a contiguous run anywhere in `s`? -/
def subOf (pat : List Char) : List Char → Bool
  | [] => leadsWith pat []
  | c :: cs => leadsWith pat (c :: cs) || subOf pat cs

/-- JavaScript `s.includes(pat)`: case-sensitive substring test. -/
def includes (s pat : String) : Bool :=
  subOf pat.data s.data

/-- JavaScript `s.replace(pat, rep)` with a string pattern: replaces only the
first occurrence, returns `s` unchanged when the pattern does not occur. -/
def replFirst (pat rep : List Char) : List Char → List Char
  | [] => if leadsWith pat [] then rep else []
  | c :: cs =>
      if leadsWith pat (c :: cs) then rep ++ List.drop pat.length (c :: cs)
      else c :: replFirst pat rep cs

/-- String-level wrapper for `replFirst`. -/
def replaceFirst (s pat rep : String) : String :=
  ⟨replFirst pat.data rep.data s.data⟩

/-- JavaScript `Array.prototype.join(sep)` on a list of strings. -/
def jsJoin (sep : String) : List String → String
  | [] => ""
  | x :: rest => rest.foldl (fun acc y => acc ++ sep ++ y) x

/-- The type-detection conditional of `fetchWorkflowLogs` (api.ts 119-126):
default `info`; `success`/`completed` win over `warning`/`waiting`, which win
over `error`/`failed`; all checks are case-sensitive `includes` calls on the
raw line. -/
def classify (log : String) : LogType :=
  if includes log "success" || includes log "completed" then .success
  else if includes log "warning" || includes log "waiting" then .warning
  else if includes log "error" || includes log "failed" then .error
  else .info

/-- A category value in the raw payload: either an array of log-line strings
or some other (ignored) JSON shape, as distinguished by `Array.isArray`. -/
inductive CatVal
  | arr (logs : List String)
  | other
deriving DecidableEq, Repr

/-- `Array.isArray` on a category value. -/
def CatVal.isArr : CatVal → Bool
  | .arr _ => true
  | .other => false

/-- The per-file category map: category name to category value. -/
abbrev FileData := List (String × CatVal)

/-- The per-job file map: file name to file data. -/
abbrev JobLogs := List (String × FileData)

/-- The `cleanedLogs` map: job name to job logs. -/
abbrev CleanedLogs := List (String × JobLogs)

instance : DecidableEq FileData := inferInstance

instance : DecidableEq JobLogs := inferInstance

instance : DecidableEq CleanedLogs := inferInstance

/-- The parsed body of the workflow-logs endpoint; `cleanedLogs` may be
absent. -/
structure LogsPayload where
  cleanedLogs : Option CleanedLogs
deriving DecidableEq, Repr

/-- The entry pushed for one raw line (api.ts 128-132): the message verbatim,
the detected type, and the category key unless it is exactly `SingleLogs`. -/
def mkEntry (category log : String) : LogEntry :=
  { message := log
    type := some (classify log)
    category := if category == "SingleLogs" then none else some category }

/-- The body of the category loop of `fetchWorkflowLogs` (api.ts 113-135):
if the category value is an array, push one entry per line in array order;
otherwise skip. -/
def catStep (entries : List LogEntry) (cv : String × CatVal) : List LogEntry :=
  match cv.2 with
  | .arr logs => logs.foldl (fun es log => es ++ [mkEntry cv.1 log]) entries
  | .other => entries

/-- The inner category loop of `fetchWorkflowLogs`: fold `catStep` over the
file's categories in key order, starting from no entries. -/
def entriesOfFile (fileData : FileData) : List LogEntry :=
  fileData.foldl catStep []

/-- The per-file step of `fetchWorkflowLogs` (api.ts 108-143): compute the
entries and append a `LogFile` named `job/file` only when at least one entry
was produced. -/
def processFile (jobName : String) (logFiles : List LogFile)
    (fp : String × FileData) : List LogFile :=
  let entries := entriesOfFile fp.2
  if entries.length > 0 then
    logFiles ++ [{ name := jobName ++ "/" ++ fp.1, logs := entries }]
  else logFiles

/-- The per-job step: fold the job's file map in key order. -/
def processJob (logFiles : List LogFile) (jb : String × JobLogs) : List LogFile :=
  jb.2.foldl (processFile jb.1) logFiles

/-- The normalization step of `fetchWorkflowLogs` (api.ts 101-147): nothing
when `cleanedLogs` is absent, otherwise the nested fold over jobs and files. -/
def normalizeLogs (data : LogsPayload) : List LogFile :=
  match data.cleanedLogs with
  | none => []
  | some cleaned => cleaned.foldl processJob []

/-- An HTTP response as the wrappers see it: the `ok` flag and the result of
`response.json()` (which may itself fail). -/
structure HttpResponse (β : Type) where
  ok : Bool
  json : Except String β

/-- `fetchWorkflowLogs` after the network call: throw on a non-ok status,
propagate a parse failure, otherwise normalize the parsed payload. -/
def fetchWorkflowLogs (resp : HttpResponse LogsPayload) :
    Except String (List LogFile) :=
  if resp.ok = false then .error "Failed to fetch workflow logs"
  else
    match resp.json with
    | .error e => .error e
    | .ok data => .ok (normalizeLogs data)

/-- The parsed body of the repositories endpoint; `repoNames` may be absent. -/
structure ReposBody where
  repoNames : Option (List String)
deriving DecidableEq, Repr

/-- `fetchRepositories` (api.ts 32-46): throw on a non-ok status or a parse
failure; `data.repoNames.map(...)` throws a TypeError when `repoNames` is
absent, otherwise each name is wrapped as `{repoName: name}`. -/
def fetchRepositories (resp : HttpResponse ReposBody) :
    Except String (List Repository) :=
  if resp.ok = false then .error "Failed to fetch repositories"
  else
    match resp.json with
    | .error e => .error e
    | .ok data =>
        match data.repoNames with
        | none => .error "TypeError: data.repoNames is undefined"
        | some names => .ok (names.map fun name => { repoName := name })

/-- One element of `storeLogs` in the workflows payload. -/
structure StoreLog where
  id : String
  display_title : String
deriving DecidableEq, Repr

/-- The parsed body of the workflows endpoint; every consumed field may be
absent. -/
structure WorkflowsBody where
  storeLogs : Option (List StoreLog)
  success : Option Int
  failure : Option Int
  Progress : Option Int
  Cancel : Option Int
deriving DecidableEq, Repr

/-- JavaScript `x || 0` on an optional number: 0 when absent, 0 when the
value is falsy (i.e. zero), otherwise the value itself. -/
def jsOrZero (x : Option Int) : Int :=
  match x with
  | some v => if v = 0 then 0 else v
  | none => 0

/-- `fetchWorkflows` (api.ts 49-82): throw on a non-ok status or parse
failure; `storeLogs?.map(...) || []` with field projection, and the four stat
counters via `|| 0`. -/
def fetchWorkflows (resp : HttpResponse WorkflowsBody) :
    Except String (List Workflow × WorkflowStats) :=
  if resp.ok = false then .error "Failed to fetch workflows"
  else
    match resp.json with
    | .error e => .error e
    | .ok data =>
        let workflows :=
          (data.storeLogs.map fun ls =>
            ls.map fun log => { id := log.id, display_title := log.display_title : Workflow }).getD []
        let stats : WorkflowStats :=
          { success := jsOrZero data.success
            failure := jsOrZero data.failure
            progress := jsOrZero data.Progress
            cancel := jsOrZero data.Cancel }
        .ok (workflows, stats)

/-- The text content built by `downloadLogs` (LogViewer.tsx 57): the active
file's messages joined by a newline. -/
def downloadContent (file : LogFile) : String :=
  jsJoin "\n" (file.logs.map LogEntry.message)

/-- The download filename built by `downloadLogs` (LogViewer.tsx 64):
`{repoName}-{workflowTitle}-{activeTab.replace('/', '-')}.txt`. -/
def downloadName (repoName workflowTitle activeTab : String) : String :=
  repoName ++ "-" ++ workflowTitle ++ "-" ++ replaceFirst activeTab "/" "-" ++ ".txt"

/-! ### Specification-side definitions

These restate, in the spec's words, the per-file entry list (a flat
concatenation in category and array order), the total entry count, the
output name order, the newline-joined export content, and the all-slashes
filename substitution claimed by the spec. They are compared against the
source-derived definitions above. -/

/-- Spec-side: all entries of a file, category by category in key order,
each array in source order, non-arrays contributing nothing. -/
def flatEntries (fd : FileData) : List LogEntry :=
  fd.flatMap fun cv =>
    match cv.2 with
    | .arr logs => logs.map (mkEntry cv.1)
    | .other => []

/-- Spec-side: the length of an array-valued category, 0 otherwise. -/
def catLen : CatVal → Nat
  | .arr logs => logs.length
  | .other => 0

/-- Spec-side: the sum of the lengths of a file's array-valued categories. -/
def sumCatLens (fd : FileData) : Nat :=
  (fd.map fun cv => catLen cv.2).sum

/-- Spec-side: the log files of one job, in file-key order. -/
def filesSpec (j : String) (jl : JobLogs) : List LogFile :=
  jl.flatMap fun fp =>
    if (entriesOfFile fp.2).length > 0 then
      [{ name := j ++ "/" ++ fp.1, logs := entriesOfFile fp.2 }]
    else []

/-- Spec-side: the whole output, jobs in key order, files in key order. -/
def logFilesSpec (data : LogsPayload) : List LogFile :=
  match data.cleanedLogs with
  | none => []
  | some cleaned => cleaned.flatMap fun jb => filesSpec jb.1 jb.2

/-- Spec-side: the output names in traversal order of the input keys, keeping
exactly the (job, file) pairs that yield at least one entry. -/
def fileNamesSpec (data : LogsPayload) : List String :=
  match data.cleanedLogs with
  | none => []
  | some cleaned =>
      cleaned.flatMap fun jb =>
        (jb.2.filter fun fp => (entriesOfFile fp.2).length > 0).map
          fun fp => jb.1 ++ "/" ++ fp.1

/-- Spec-side: one message per line, newline-joined. -/
def newlineJoined : List String → String
  | [] => ""
  | [m] => m
  | m :: rest => m ++ "\n" ++ newlineJoined rest

/-- Spec-side (the claimed filename substitution): the name with every
slash replaced by a dash. -/
def dashSlashes (s : String) : String :=
  ⟨s.data.map fun c => if c = '/' then '-' else c⟩

/-! ### Concrete sample inputs used to instantiate the theorems -/

/-- A file-data map with a default bucket, a named category and a non-array
category. -/
def sampleFileData : FileData :=
  [("SingleLogs", CatVal.arr ["Starting job", "Task completed"]),
   ("Deploy", CatVal.arr ["Step failed"]),
   ("Meta", CatVal.other)]

/-- A payload with one job holding one populated file and one empty file. -/
def samplePayload : LogsPayload :=
  { cleanedLogs := some
      [("build",
        [("step.txt", sampleFileData),
         ("empty.txt", [("SingleLogs", CatVal.arr [])])])] }

/-- The log file the sample payload normalizes to. -/
def sampleFile : LogFile :=
  { name := "build/step.txt", logs := entriesOfFile sampleFileData }

/-- A successful workflow-logs response carrying the sample payload. -/
def sampleLogsResponse : HttpResponse LogsPayload :=
  { ok := true, json := Except.ok samplePayload }

/-- The workflows body of the spec example: only `success` present. -/
def sampleWorkflowsBody : WorkflowsBody :=
  { storeLogs := none, success := some 3, failure := none,
    Progress := none, Cancel := none }

/-- A successful workflows response carrying the sample body. -/
def sampleWorkflowsResponse : HttpResponse WorkflowsBody :=
  { ok := true, json := Except.ok sampleWorkflowsBody }

/-- A repositories body with two names. -/
def sampleReposBody : ReposBody :=
  { repoNames := some ["alpha", "beta"] }

/-- A successful repositories response carrying the sample body. -/
def sampleReposResponse : HttpResponse ReposBody :=
  { ok := true, json := Except.ok sampleReposBody }

/-! ### Structural lemmas about the normalizer folds -/

theorem push_fold (c : String) (logs : List String) (acc : List LogEntry) :
    logs.foldl (fun es log => es ++ [mkEntry c log]) acc
      = acc ++ logs.map (mkEntry c) := by
  induction logs generalizing acc with
  | nil => simp
  | cons l ls ih => simp [ih]

theorem catStep_arr (c : String) (logs : List String) (entries : List LogEntry) :
    catStep entries (c, CatVal.arr logs) = entries ++ logs.map (mkEntry c) :=
  push_fold c logs entries

theorem catStep_other (c : String) (entries : List LogEntry) :
    catStep entries (c, CatVal.other) = entries := rfl

theorem entriesOfFile_aux (fd : FileData) (acc : List LogEntry) :
    fd.foldl catStep acc = acc ++ flatEntries fd := by
  induction fd generalizing acc with
  | nil => simp [flatEntries]
  | cons hd tl ih =>
      obtain ⟨c, v⟩ := hd
      cases v with
      | arr logs => simp [catStep_arr, ih, flatEntries, List.append_assoc]
      | other => simp [catStep_other, ih, flatEntries]

theorem entriesOfFile_eq (fd : FileData) :
    entriesOfFile fd = flatEntries fd := by
  simpa [entriesOfFile] using entriesOfFile_aux fd []

theorem files_fold (j : String) (jl : JobLogs) (acc : List LogFile) :
    jl.foldl (processFile j) acc = acc ++ filesSpec j jl := by
  induction jl generalizing acc with
  | nil => simp [filesSpec]
  | cons hd tl ih =>
      simp only [List.foldl_cons, filesSpec, List.flatMap_cons, processFile]
      by_cases h : (entriesOfFile hd.2).length > 0 <;>
        simp [h, ih, filesSpec, List.append_assoc]

theorem jobs_fold (cl : CleanedLogs) (acc : List LogFile) :
    cl.foldl processJob acc
      = acc ++ cl.flatMap fun jb => filesSpec jb.1 jb.2 := by
  induction cl generalizing acc with
  | nil => simp
  | cons hd tl ih =>
      simp only [List.foldl_cons, List.flatMap_cons, processJob]
      rw [files_fold, ih, List.append_assoc]

theorem normalizeLogs_eq (data : LogsPayload) :
    normalizeLogs data = logFilesSpec data := by
  obtain ⟨o⟩ := data
  cases o with
  | none => rfl
  | some cl => simpa [normalizeLogs, logFilesSpec] using jobs_fold cl []

theorem mem_ite_singleton {α : Type} {c : Prop} [Decidable c] {x a : α} :
    (x ∈ if c then [a] else ([] : List α)) ↔ c ∧ x = a := by
  by_cases h : c <;> simp [h]

theorem mem_normalizeLogs {data : LogsPayload} {lf : LogFile} :
    lf ∈ normalizeLogs data ↔
      ∃ cl, data.cleanedLogs = some cl ∧
        ∃ jb ∈ cl, ∃ fp ∈ jb.2,
          0 < (entriesOfFile fp.2).length ∧
          lf = { name := jb.1 ++ "/" ++ fp.1, logs := entriesOfFile fp.2 } := by
  rw [normalizeLogs_eq]
  obtain ⟨o⟩ := data
  cases o with
  | none => simp [logFilesSpec]
  | some cl =>
      simp [logFilesSpec, filesSpec, List.mem_flatMap, mem_ite_singleton,
        gt_iff_lt]

theorem flatEntries_cons (cv : String × CatVal) (tl : FileData) :
    flatEntries (cv :: tl)
      = (match cv.2 with
          | CatVal.arr logs => logs.map (mkEntry cv.1)
          | CatVal.other => []) ++ flatEntries tl := rfl

theorem sumCatLens_cons (cv : String × CatVal) (tl : FileData) :
    sumCatLens (cv :: tl) = catLen cv.2 + sumCatLens tl := by
  simp [sumCatLens]

theorem length_flatEntries (fd : FileData) :
    (flatEntries fd).length = sumCatLens fd := by
  induction fd with
  | nil => rfl
  | cons hd tl ih =>
      rw [flatEntries_cons, List.length_append, sumCatLens_cons, ih]
      obtain ⟨c, v⟩ := hd
      cases v <;> simp [catLen]

theorem flatEntries_filter (fd : FileData) :
    flatEntries (fd.filter fun cv => cv.2.isArr) = flatEntries fd := by
  induction fd with
  | nil => rfl
  | cons hd tl ih =>
      obtain ⟨c, v⟩ := hd
      cases v with
      | arr logs =>
          show flatEntries ((c, CatVal.arr logs) :: (tl.filter fun cv => cv.2.isArr))
            = flatEntries ((c, CatVal.arr logs) :: tl)
          rw [flatEntries_cons, flatEntries_cons, ih]
      | other =>
          show flatEntries (tl.filter fun cv => cv.2.isArr)
            = flatEntries ((c, CatVal.other) :: tl)
          rw [ih]
          rfl

theorem entriesOfFile_filter (fd : FileData) :
    entriesOfFile (fd.filter fun cv => cv.2.isArr) = entriesOfFile fd := by
  rw [entriesOfFile_eq, entriesOfFile_eq, flatEntries_filter]

theorem mem_entriesOfFile {fd : FileData} {e : LogEntry} :
    e ∈ entriesOfFile fd ↔
      ∃ cat logs, (cat, CatVal.arr logs) ∈ fd ∧ ∃ log ∈ logs, e = mkEntry cat log := by
  rw [entriesOfFile_eq]
  unfold flatEntries
  rw [List.mem_flatMap]
  constructor
  · rintro ⟨cv, hcv, he⟩
    obtain ⟨c, v⟩ := cv
    cases v with
    | arr logs =>
        simp only [List.mem_map] at he
        obtain ⟨log, hlog, rfl⟩ := he
        exact ⟨c, logs, hcv, log, hlog, rfl⟩
    | other => simp at he
  · rintro ⟨c, logs, hmem, log, hlog, rfl⟩
    exact ⟨(c, CatVal.arr logs), hmem, by simp [List.mem_map]; exact ⟨log, hlog, rfl⟩⟩

theorem filesSpec_cons (j : String) (fp : String × FileData) (jl : JobLogs) :
    filesSpec j (fp :: jl)
      = (if (entriesOfFile fp.2).length > 0 then
          [{ name := j ++ "/" ++ fp.1, logs := entriesOfFile fp.2 }]
        else []) ++ filesSpec j jl := rfl

theorem files_names (j : String) (jl : JobLogs) :
    (filesSpec j jl).map LogFile.name
      = (jl.filter fun fp => (entriesOfFile fp.2).length > 0).map
          fun fp => j ++ "/" ++ fp.1 := by
  induction jl with
  | nil => rfl
  | cons hd tl ih =>
      rw [filesSpec_cons, List.map_append, ih, List.filter_cons]
      by_cases h : (entriesOfFile hd.2).length > 0 <;> simp [h]

theorem map_name_normalizeLogs (data : LogsPayload) :
    (normalizeLogs data).map LogFile.name = fileNamesSpec data := by
  rw [normalizeLogs_eq]
  obtain ⟨o⟩ := data
  cases o with
  | none => rfl
  | some cl =>
      simp only [logFilesSpec, fileNamesSpec, List.map_flatMap]
      induction cl with
      | nil => rfl
      | cons hd tl ih => simp [files_names, ih]

/-! ### Lemmas about the download helpers -/

theorem newlineJoined_shift (a b : String) (ys : List String) :
    newlineJoined ((a ++ "\n" ++ b) :: ys) = a ++ "\n" ++ newlineJoined (b :: ys) := by
  cases ys with
  | nil => rfl
  | cons z zs => simp [newlineJoined, String.append_assoc]

theorem jsJoin_fold (rest : List String) (x : String) :
    rest.foldl (fun acc y => acc ++ "\n" ++ y) x = newlineJoined (x :: rest) := by
  induction rest generalizing x with
  | nil => rfl
  | cons y ys ih =>
      rw [List.foldl_cons, ih, newlineJoined_shift]
      rfl

theorem jsJoin_eq_newlineJoined (msgs : List String) :
    jsJoin "\n" msgs = newlineJoined msgs := by
  cases msgs with
  | nil => rfl
  | cons x rest => exact jsJoin_fold rest x

theorem replFirst_no_slash (j fn : List Char) (hj : ¬ '/' ∈ j) :
    replFirst ['/'] ['-'] (j ++ '/' :: fn) = j ++ '-' :: fn := by
  induction j with
  | nil => simp [replFirst, leadsWith]
  | cons c cs ih =>
      have hc : ('/' == c) = false := by
        rw [beq_eq_false_iff_ne]
        intro h
        exact hj (by simp [h.symm])
      have hcs : ¬ '/' ∈ cs := fun h => hj (by simp [h])
      simp [replFirst, leadsWith, hc, ih hcs]

theorem replaceFirst_join (j fn : String) (hj : ¬ '/' ∈ j.data) :
    replaceFirst (j ++ "/" ++ fn) "/" "-" = j ++ "-" ++ fn := by
  apply String.ext
  show replFirst ['/'] ['-'] (j ++ "/" ++ fn).data = (j ++ "-" ++ fn).data
  rw [String.data_append, String.data_append, String.data_append, String.data_append,
    List.append_assoc, List.append_assoc]
  exact replFirst_no_slash j.data fn.data hj

theorem jsOrZero_some (v : Int) : jsOrZero (some v) = v := by
  unfold jsOrZero
  by_cases h : v = 0 <;> simp [h]

theorem jsOrZero_none : jsOrZero none = 0 := rfl

theorem mem_logs_provenance {data : LogsPayload} {lf : LogFile} {e : LogEntry}
    (hlf : lf ∈ normalizeLogs data) (he : e ∈ lf.logs) :
    ∃ cl, data.cleanedLogs = some cl ∧
      ∃ jb ∈ cl, ∃ fp ∈ jb.2, ∃ cat logs,
        (cat, CatVal.arr logs) ∈ fp.2 ∧ ∃ log ∈ logs, e = mkEntry cat log := by
  rw [mem_normalizeLogs] at hlf
  obtain ⟨cl, hcl, jb, hjb, fp, hfp, hlen, rfl⟩ := hlf
  have he2 : e ∈ entriesOfFile fp.2 := he
  rw [mem_entriesOfFile] at he2
  obtain ⟨cat, logs, hmem, log, hlog, rfl⟩ := he2
  exact ⟨cl, hcl, jb, hjb, fp, hfp, cat, logs, hmem, log, hlog, rfl⟩

/-! ### Claim theorems -/

/-- C1 counterexample: the classifier does not lowercase the line. The
lowercase form of "Waiting for runner" contains "waiting", so the claim
assigns type "warning" to that line, but the code's case-sensitive check
misses the capitalised "Waiting" and assigns "info". -/
theorem classify_lowercase_counterexample :
    includes "waiting for runner" "waiting" = true ∧
    includes "Waiting for runner" "waiting" = false ∧
    classify "Waiting for runner" = LogType.info ∧
    LogType.info ≠ LogType.warning := by decide

/-- C1 (amended): the type of every entry is `classify` of its raw line,
where `classify` defaults to "info" and applies case-sensitive substring
checks on the raw (not lowercased) line in the precedence order
success/completed, then warning/waiting, then error/failed; consequently
"Task completed" is success, "Step failed" is error, "Starting job" is info,
and "Waiting for runner" is info because its keyword is capitalised. -/
theorem classify_case_sensitive_precedence (log : String) :
    (∀ cat : String, (mkEntry cat log).type = some (classify log)) ∧
    (classify log = LogType.success ↔
      (includes log "success" || includes log "completed") = true) ∧
    (classify log = LogType.warning ↔
      (includes log "success" || includes log "completed") = false ∧
      (includes log "warning" || includes log "waiting") = true) ∧
    (classify log = LogType.error ↔
      (includes log "success" || includes log "completed") = false ∧
      (includes log "warning" || includes log "waiting") = false ∧
      (includes log "error" || includes log "failed") = true) ∧
    (classify log = LogType.info ↔
      (includes log "success" || includes log "completed") = false ∧
      (includes log "warning" || includes log "waiting") = false ∧
      (includes log "error" || includes log "failed") = false) ∧
    classify "Task completed" = LogType.success ∧
    classify "Waiting for runner" = LogType.info ∧
    classify "Step failed" = LogType.error ∧
    classify "Starting job" = LogType.info := by
  refine ⟨fun cat => rfl, ?_, ?_, ?_, ?_, by decide, by decide, by decide, by decide⟩ <;>
    (unfold classify
     cases h1 : (includes log "success" || includes log "completed") <;>
       cases h2 : (includes log "warning" || includes log "waiting") <;>
         cases h3 : (includes log "error" || includes log "failed") <;>
           simp [h1, h2, h3])

/-- C2: every output log file comes from some (job, file) pair of the input,
its entries are exactly the concatenation of that pair's array-valued
categories in source order, its entry count is the sum of those array
lengths, and it is non-empty (a pair with zero total entries yields no
file). -/
theorem entry_count_and_order (data : LogsPayload) (lf : LogFile)
    (h : lf ∈ normalizeLogs data) :
    0 < lf.logs.length ∧
    ∃ cl, data.cleanedLogs = some cl ∧
      ∃ jb ∈ cl, ∃ fp ∈ jb.2,
        lf.name = jb.1 ++ "/" ++ fp.1 ∧
        lf.logs = flatEntries fp.2 ∧
        lf.logs.length = sumCatLens fp.2 := by
  rw [mem_normalizeLogs] at h
  obtain ⟨cl, hcl, jb, hjb, fp, hfp, hlen, rfl⟩ := h
  refine ⟨by simpa using hlen, cl, hcl, jb, hjb, fp, hfp, rfl, ?_, ?_⟩
  · simpa using entriesOfFile_eq fp.2
  · show (entriesOfFile fp.2).length = sumCatLens fp.2
    rw [entriesOfFile_eq, length_flatEntries]

/-- C2 witness: instantiated on the sample payload's populated file. -/
theorem entry_count_and_order_witness :
    0 < sampleFile.logs.length ∧
    ∃ cl, samplePayload.cleanedLogs = some cl ∧
      ∃ jb ∈ cl, ∃ fp ∈ jb.2,
        sampleFile.name = jb.1 ++ "/" ++ fp.1 ∧
        sampleFile.logs = flatEntries fp.2 ∧
        sampleFile.logs.length = sumCatLens fp.2 :=
  entry_count_and_order samplePayload sampleFile (by decide)

/-- C3: the normalizer is deterministic (equal inputs give equal outputs)
and the output names are exactly the input's (job, file) keys in traversal
order, joined with "/", keeping the pairs that yield at least one entry. -/
theorem output_order_deterministic :
    (∀ d1 d2 : LogsPayload, d1 = d2 → normalizeLogs d1 = normalizeLogs d2) ∧
    ∀ data : LogsPayload,
      (normalizeLogs data).map LogFile.name = fileNamesSpec data :=
  ⟨fun _ _ h => h ▸ rfl, map_name_normalizeLogs⟩

/-- C3 witness: instantiated on the sample payload, whose empty file is
filtered out of the name order. -/
theorem output_order_deterministic_witness :
    normalizeLogs samplePayload = normalizeLogs samplePayload ∧
    (normalizeLogs samplePayload).map LogFile.name = ["build/step.txt"] :=
  ⟨output_order_deterministic.1 samplePayload samplePayload rfl,
   by rw [output_order_deterministic.2 samplePayload]; decide⟩

/-- C4: every output entry originates from some category array of its file;
its category field is absent exactly when the source category key is
"SingleLogs" and equals the key verbatim otherwise, so "SingleLogs" never
appears as a populated category value. -/
theorem category_attachment (data : LogsPayload) (lf : LogFile) (e : LogEntry)
    (hlf : lf ∈ normalizeLogs data) (he : e ∈ lf.logs) :
    e.category ≠ some "SingleLogs" ∧
    ∃ cl, data.cleanedLogs = some cl ∧
      ∃ jb ∈ cl, ∃ fp ∈ jb.2, ∃ cat logs,
        (cat, CatVal.arr logs) ∈ fp.2 ∧ e.message ∈ logs ∧
        e.category = if cat = "SingleLogs" then none else some cat := by
  obtain ⟨cl, hcl, jb, hjb, fp, hfp, cat, logs, hmem, log, hlog, rfl⟩ :=
    mem_logs_provenance hlf he
  constructor
  · by_cases h : cat = "SingleLogs" <;> simp [mkEntry, h]
  · refine ⟨cl, hcl, jb, hjb, fp, hfp, cat, logs, hmem, by simpa [mkEntry] using hlog, ?_⟩
    by_cases h : cat = "SingleLogs" <;> simp [mkEntry, h]

/-- C4 witness: instantiated on the "Step failed" entry of the sample file,
whose source category is "Deploy". -/
theorem category_attachment_witness :
    (mkEntry "Deploy" "Step failed").category ≠ some "SingleLogs" ∧
    ∃ cl, samplePayload.cleanedLogs = some cl ∧
      ∃ jb ∈ cl, ∃ fp ∈ jb.2, ∃ cat logs,
        (cat, CatVal.arr logs) ∈ fp.2 ∧
        (mkEntry "Deploy" "Step failed").message ∈ logs ∧
        (mkEntry "Deploy" "Step failed").category
          = if cat = "SingleLogs" then none else some cat :=
  category_attachment samplePayload sampleFile (mkEntry "Deploy" "Step failed")
    (by decide) (by decide)

/-- C5: the normalization step is total: a successful, parseable response is
always normalized without an error; an absent (or empty) `cleanedLogs` map
yields the empty list of log files; and removing all non-array categories
changes nothing, i.e. non-array category values contribute no entries and
no error. -/
theorem normalization_total (resp : HttpResponse LogsPayload) (data : LogsPayload)
    (hok : resp.ok = true) (hjson : resp.json = Except.ok data) :
    fetchWorkflowLogs resp = Except.ok (normalizeLogs data) ∧
    normalizeLogs { cleanedLogs := none } = [] ∧
    normalizeLogs { cleanedLogs := some [] } = [] ∧
    ∀ fd : FileData,
      entriesOfFile (fd.filter fun cv => cv.2.isArr) = entriesOfFile fd := by
  refine ⟨?_, rfl, rfl, entriesOfFile_filter⟩
  simp [fetchWorkflowLogs, hok, hjson]

/-- C5 witness: instantiated on the successful sample response. -/
theorem normalization_total_witness :
    fetchWorkflowLogs sampleLogsResponse = Except.ok (normalizeLogs samplePayload) ∧
    normalizeLogs { cleanedLogs := none } = [] ∧
    normalizeLogs { cleanedLogs := some [] } = [] ∧
    ∀ fd : FileData,
      entriesOfFile (fd.filter fun cv => cv.2.isArr) = entriesOfFile fd :=
  normalization_total sampleLogsResponse samplePayload rfl rfl

/-- C6 counterexample: on a name with two slashes the download filename
replaces only the first slash, so it differs from the claimed pattern in
which every slash becomes a dash. -/
theorem download_name_counterexample :
    downloadName "repo" "title" "a/b/c"
      = "repo" ++ "-" ++ "title" ++ "-" ++ "a-b/c" ++ ".txt" ∧
    downloadName "repo" "title" "a/b/c"
      ≠ "repo" ++ "-" ++ "title" ++ "-" ++ dashSlashes "a/b/c" ++ ".txt" := by
  decide

/-- C6 (amended): the exported content is the active file's messages joined
by newlines, and the download filename is
`{repo}-{workflowTitle}-{fileName with only its FIRST "/" replaced by "-"}.txt`;
for a normalizer name `job/file` whose job part contains no slash this
replaces the joining slash, but later slashes in the name are kept. -/
theorem download_export_format (file : LogFile) (repo title j fn : String)
    (hj : ¬ '/' ∈ j.data) :
    downloadContent file = newlineJoined (file.logs.map LogEntry.message) ∧
    downloadName repo title (j ++ "/" ++ fn)
      = repo ++ "-" ++ title ++ "-" ++ j ++ "-" ++ fn ++ ".txt" := by
  refine ⟨jsJoin_eq_newlineJoined _, ?_⟩
  unfold downloadName
  rw [replaceFirst_join j fn hj]
  simp [String.append_assoc]

/-- C6 witness: instantiated on the sample file and its job/file name. -/
theorem download_export_format_witness :
    downloadContent sampleFile = newlineJoined (sampleFile.logs.map LogEntry.message) ∧
    downloadName "repo" "title" ("build" ++ "/" ++ "step.txt")
      = "repo" ++ "-" ++ "title" ++ "-" ++ "build" ++ "-" ++ "step.txt" ++ ".txt" :=
  download_export_format sampleFile "repo" "title" "build" "step.txt" (by decide)

/-- C7: on a successful parsed workflows payload the wrapper returns stats in
which each counter equals the corresponding payload field when present and 0
when absent. -/
theorem stats_default_zero (resp : HttpResponse WorkflowsBody) (data : WorkflowsBody)
    (hok : resp.ok = true) (hjson : resp.json = Except.ok data) :
    ∃ wfs stats, fetchWorkflows resp = Except.ok (wfs, stats) ∧
      ((∀ v, data.success = some v → stats.success = v) ∧
        (data.success = none → stats.success = 0)) ∧
      ((∀ v, data.failure = some v → stats.failure = v) ∧
        (data.failure = none → stats.failure = 0)) ∧
      ((∀ v, data.Progress = some v → stats.progress = v) ∧
        (data.Progress = none → stats.progress = 0)) ∧
      ((∀ v, data.Cancel = some v → stats.cancel = v) ∧
        (data.Cancel = none → stats.cancel = 0)) := by
  refine ⟨(data.storeLogs.map fun ls =>
      ls.map fun log => ({ id := log.id, display_title := log.display_title } : Workflow)).getD [],
    { success := jsOrZero data.success, failure := jsOrZero data.failure,
      progress := jsOrZero data.Progress, cancel := jsOrZero data.Cancel },
    ?_, ?_, ?_, ?_, ?_⟩
  · simp [fetchWorkflows, hok, hjson]
  all_goals constructor
  all_goals first
    | (intro v hv; simp [hv, jsOrZero_some])
    | (intro hv; simp [hv, jsOrZero_none])

/-- C7 witness: the payload `{success: 3}` alone yields stats 3, 0, 0, 0. -/
theorem stats_default_zero_witness :
    (∃ wfs stats, fetchWorkflows sampleWorkflowsResponse = Except.ok (wfs, stats) ∧
      ((∀ v, sampleWorkflowsBody.success = some v → stats.success = v) ∧
        (sampleWorkflowsBody.success = none → stats.success = 0)) ∧
      ((∀ v, sampleWorkflowsBody.failure = some v → stats.failure = v) ∧
        (sampleWorkflowsBody.failure = none → stats.failure = 0)) ∧
      ((∀ v, sampleWorkflowsBody.Progress = some v → stats.progress = v) ∧
        (sampleWorkflowsBody.Progress = none → stats.progress = 0)) ∧
      ((∀ v, sampleWorkflowsBody.Cancel = some v → stats.cancel = v) ∧
        (sampleWorkflowsBody.Cancel = none → stats.cancel = 0))) ∧
    fetchWorkflows sampleWorkflowsResponse
      = Except.ok ([], { success := 3, failure := 0, progress := 0, cancel := 0 }) :=
  ⟨stats_default_zero sampleWorkflowsResponse sampleWorkflowsBody rfl rfl, rfl⟩

/-- C8: a non-ok HTTP status makes each of the three wrappers signal the
respective failure instead of returning a result. -/
theorem non_ok_fails (r1 : HttpResponse ReposBody) (r2 : HttpResponse WorkflowsBody)
    (r3 : HttpResponse LogsPayload)
    (h1 : r1.ok = false) (h2 : r2.ok = false) (h3 : r3.ok = false) :
    fetchRepositories r1 = Except.error "Failed to fetch repositories" ∧
    fetchWorkflows r2 = Except.error "Failed to fetch workflows" ∧
    fetchWorkflowLogs r3 = Except.error "Failed to fetch workflow logs" := by
  refine ⟨?_, ?_, ?_⟩ <;>
    simp [fetchRepositories, fetchWorkflows, fetchWorkflowLogs, h1, h2, h3]

/-- C8 witness: instantiated on three concrete non-ok responses. -/
theorem non_ok_fails_witness :
    fetchRepositories { ok := false, json := Except.ok sampleReposBody }
      = Except.error "Failed to fetch repositories" ∧
    fetchWorkflows { ok := false, json := Except.ok sampleWorkflowsBody }
      = Except.error "Failed to fetch workflows" ∧
    fetchWorkflowLogs { ok := false, json := Except.ok samplePayload }
      = Except.error "Failed to fetch workflow logs" :=
  non_ok_fails
    { ok := false, json := Except.ok sampleReposBody }
    { ok := false, json := Except.ok sampleWorkflowsBody }
    { ok := false, json := Except.ok samplePayload }
    rfl rfl rfl

/-- C9: on a successfully parsed body, `fetchRepositories` fails when
`repoNames` is absent instead of returning an empty list, and when present
it returns the names wrapped in order with the same length. -/
theorem repoNames_required (resp : HttpResponse ReposBody) (data : ReposBody)
    (hok : resp.ok = true) (hjson : resp.json = Except.ok data) :
    (data.repoNames = none →
      fetchRepositories resp = Except.error "TypeError: data.repoNames is undefined") ∧
    ∀ names, data.repoNames = some names →
      fetchRepositories resp = Except.ok (names.map fun name => { repoName := name }) ∧
      (names.map fun name => ({ repoName := name } : Repository)).length = names.length := by
  constructor
  · intro h
    simp [fetchRepositories, hok, hjson, h]
  · intro names h
    exact ⟨by simp [fetchRepositories, hok, hjson, h], by simp⟩

/-- C9 witness: instantiated on the sample body holding two names. -/
theorem repoNames_required_witness :
    (sampleReposBody.repoNames = none →
      fetchRepositories sampleReposResponse
        = Except.error "TypeError: data.repoNames is undefined") ∧
    ∀ names, sampleReposBody.repoNames = some names →
      fetchRepositories sampleReposResponse
        = Except.ok (names.map fun name => { repoName := name }) ∧
      (names.map fun name => ({ repoName := name } : Repository)).length = names.length :=
  repoNames_required sampleReposResponse sampleReposBody rfl rfl

/-- C10: every entry the normalizer outputs has a defined type field, and it
is one of the four declared values. -/
theorem entry_type_always_defined (data : LogsPayload) (lf : LogFile) (e : LogEntry)
    (hlf : lf ∈ normalizeLogs data) (he : e ∈ lf.logs) :
    ∃ t, e.type = some t ∧
      (t = LogType.info ∨ t = LogType.success ∨ t = LogType.warning ∨ t = LogType.error) := by
  obtain ⟨_, _, _, _, _, _, _, _, _, log, _, rfl⟩ := mem_logs_provenance hlf he
  refine ⟨classify log, rfl, ?_⟩
  cases h : classify log <;> simp

/-- C10 witness: instantiated on the "Starting job" entry of the sample
file. -/
theorem entry_type_always_defined_witness :
    ∃ t, (mkEntry "SingleLogs" "Starting job").type = some t ∧
      (t = LogType.info ∨ t = LogType.success ∨ t = LogType.warning ∨ t = LogType.error) :=
  entry_type_always_defined samplePayload sampleFile (mkEntry "SingleLogs" "Starting job")
    (by decide) (by decide)

end DevBeacons
